import Mathlib

/-!
Verification development for the `file-clean-rust` repository.

The definitions below are shallow embeddings of the program's source:

* `src/fnmatch_regex/glob.rs` — the glob-to-regex compiler (`glob_to_regex_string`
  together with its helpers `escape`, `escape_in_class`, `map_letter_escape`,
  `handle_slash`, `close_class`, `close_alternate` and the parser state machine).
* `src/main.rs` — the classification loop, the operation list, the depth sort,
  and the delete/rename execution passes.
* `src/main.rs` / `src/pmatcher.rs` — the two versions of
  `PatternMatcher::match_remove_hash`.

Rust `char` is embedded as Lean `Char` (both are Unicode scalar values) and
Rust `String` as Lean `String` (comparison on Rust strings is byte-lexicographic
on UTF-8, which coincides with `Char`-codepoint-lexicographic order, embedded
here as `strLe`).  File-system paths are embedded as their component lists
(`List String`), matching `Path::components`.
-/

namespace FileClean

/- ===================== fnmatch_regex/error.rs ===================== -/

/-- Embedding of `fnmatch_regex::error::Error` (`src/fnmatch_regex/error.rs`). -/
inductive FError where
  | bareEscape
  | invalidRegex (pat err : String)
  | notImplemented (message : String)
  | rangeAfterRange (s e : Char)
  | reversedRange (s e : Char)
  | unclosedAlternation
  | unclosedClass
deriving DecidableEq, Repr

/- ===================== fnmatch_regex/glob.rs ===================== -/

/-- Embedding of `ClassItem` (glob.rs): an item of a character class. -/
inductive ClassItem where
  | char (c : Char)
  | range (s e : Char)
deriving DecidableEq, Repr

/-- Embedding of `ClassAccumulator` (glob.rs). -/
structure ClassAccumulator where
  negated : Bool
  items : List ClassItem
deriving DecidableEq, Repr

/-- Embedding of `escape_in_class` (glob.rs): escape only a backslash or `]`. -/
def escape_in_class (c : Char) : String :=
  if c = ']' ∨ c = '\\' then "\\" ++ c.toString else c.toString

/-- Embedding of `escape` (glob.rs): escape regex metacharacters outside a class.
The Rust source tests membership in the string of characters
left bracket, left brace, left paren, bar, caret, dollar, dot, star,
question mark, plus, backslash. -/
def escape (c : Char) : String :=
  if c ∈ ['[', Char.ofNat 123, '(', '|', '^', '$', '.', '*', '?', '+', '\\'] then
    "\\" ++ c.toString
  else c.toString

/-- Embedding of `map_letter_escape` (glob.rs). -/
def map_letter_escape (c : Char) : Char :=
  if c = 'a' then '\x07'
  else if c = 'b' then '\x08'
  else if c = 'e' then '\x1b'
  else if c = 'f' then '\x0c'
  else if c = 'n' then '\x0a'
  else if c = 'r' then '\x0d'
  else if c = 't' then '\x09'
  else if c = 'v' then '\x0b'
  else c

/-- Embedding of `escape_special` (glob.rs). -/
def escape_special (c : Char) : String :=
  escape (map_letter_escape c)

/-- Embedding of the per-item body of `ExcIter::next` (glob.rs): rewrite one
class item so that it cannot cover the slash character.  The match arms are
reproduced in source order. -/
def excItem : ClassItem → List ClassItem
  | .char c => if c = '/' then [] else [.char c]
  | .range s e =>
    if e = '/' then
      if s = '.' then [.char '.'] else [.range s '.']
    else if s = '/' then
      if e = '0' then [.char '0'] else [.range '0' e]
    else if s > '/' ∨ e < '/' then [.range s e]
    else
      [(if s = '.' then .char '.' else .range s '.'),
       (if e = '0' then .char '0' else .range '0' e)]

/-- Embedding of `handle_slash_exclude` (glob.rs). -/
def handle_slash_exclude (acc : ClassAccumulator) : ClassAccumulator :=
  { acc with items := (acc.items.map excItem).flatten }

/-- Embedding of the predicate inside `handle_slash_include` (glob.rs):
does this item match the slash character. -/
def itemCoversSlash : ClassItem → Bool
  | .char c => c = '/'
  | .range s e => s ≤ '/' ∧ '/' ≤ e

/-- Embedding of `handle_slash_include` (glob.rs). -/
def handle_slash_include (acc : ClassAccumulator) : ClassAccumulator :=
  if acc.items.any itemCoversSlash then acc
  else { acc with items := acc.items ++ [.char '/'] }

/-- Embedding of `handle_slash` (glob.rs). -/
def handle_slash (acc : ClassAccumulator) : ClassAccumulator :=
  if acc.negated then handle_slash_include acc else handle_slash_exclude acc

/-- Stable insertion into a list sorted by the boolean relation `le`:
the new element goes in front of the first element it relates to. -/
def insertLe (le : α → α → Bool) (x : α) : List α → List α
  | [] => [x]
  | y :: ys => if le x y then x :: y :: ys else y :: insertLe le x ys

/-- Stable insertion sort by the boolean relation `le`; used to embed the
`sorted_unstable` / `sort_by` calls of the source (the orderings used there
are total, so the sorted output is the same list). -/
def isort (le : α → α → Bool) : List α → List α
  | [] => []
  | x :: xs => insertLe le x (isort le xs)

/-- Remove consecutive duplicates; embeds `Itertools::dedup`, which the source
only applies to sorted lists. -/
def dedupConsec [DecidableEq α] : List α → List α
  | [] => []
  | [x] => [x]
  | x :: y :: rest =>
    if x = y then dedupConsec (y :: rest) else x :: dedupConsec (y :: rest)

/-- Codepoint order on characters, as a boolean relation (Rust `Ord` on `char`). -/
def charLe (a b : Char) : Bool := a ≤ b

/-- Lexicographic order on character pairs (Rust `Ord` on `(char, char)`). -/
def charPairLe (a b : Char × Char) : Bool :=
  if a.1 = b.1 then a.2 ≤ b.2 else a.1 < b.1

/-- Lexicographic codepoint order on character lists. -/
def charListLe : List Char → List Char → Bool
  | [], _ => true
  | _ :: _, [] => false
  | a :: as, b :: bs => if a = b then charListLe as bs else a < b

/-- Order on strings: byte order of Rust `Ord` on `String`, which equals
codepoint-lexicographic order. -/
def strLe (a b : String) : Bool := charListLe a.toList b.toList

/-- String concatenation of a list of strings. -/
def strConcat (l : List String) : String := l.foldl (· ++ ·) ""

/-- Join a list of strings with the `|` separator (Itertools `join("|")`). -/
def joinBar : List String → String
  | [] => ""
  | [x] => x
  | x :: rest => x ++ "|" ++ joinBar rest

/-- Embedding of `close_class` (glob.rs): apply the slash rule, hoist a literal
dash to the end, sort and deduplicate the characters and the ranges, and emit
the regex bracket expression. -/
def close_class (glob_acc : ClassAccumulator) : String :=
  let acc := handle_slash glob_acc
  let chars_vec : List Char :=
    acc.items.filterMap (fun i => match i with | .char c => some c | .range _ _ => none)
  let classes_vec : List (Char × Char) :=
    acc.items.filterMap (fun i => match i with | .char _ => none | .range s e => some (s, e))
  let has_dash : Bool := chars_vec.contains '-'
  let chars : String :=
    strConcat ((dedupConsec (isort charLe (chars_vec.filter (fun c => c ≠ '-')))).map
      escape_in_class)
  let classes : String :=
    strConcat ((dedupConsec (isort charPairLe classes_vec)).map
      (fun p => escape_in_class p.1 ++ "-" ++ escape_in_class p.2))
  "[" ++ (if acc.negated then "^" else "") ++ chars ++ classes
      ++ (if has_dash then "-" else "") ++ "]"

/-- Embedding of `close_alternate` (glob.rs): escape each alternative, sort,
deduplicate, and join with `|` inside a regex group. -/
def close_alternate (gathered : List String) : String :=
  let items := dedupConsec (isort strLe
    (gathered.map (fun item => strConcat (item.toList.map escape))))
  "(" ++ joinBar items ++ ")"

/-- Embedding of the parser states of `State` (glob.rs).  `Start` is handled by
the top-level driver and `End` by termination, so neither needs a constructor. -/
inductive GlobState where
  | literal
  | esc
  | classStart
  | cls (acc : ClassAccumulator)
  | clsRange (acc : ClassAccumulator) (s : Char)
  | clsRangeDash (acc : ClassAccumulator)
  | clsEscape (acc : ClassAccumulator)
  | alternate (current : String) (gathered : List String)
  | alternateEscape (current : String) (gathered : List String)

/-- Embedding of the `GlobIterator` state machine (glob.rs): each step consumes
exactly one pattern character and emits zero or one regex fragment; the
fragments are concatenated.  Errors mirror the `Err` returns of the handlers.
The one `unreachable!()` branch of `handle_class_range_dash` is mapped to a
`notImplemented` error (it cannot be reached: `clsRangeDash` is only entered
when the accumulator ends in a range). -/
def globLoop : GlobState → List Char → Except FError String
  | .literal, [] => .ok "$"
  | .literal, c :: rest =>
    if c = '\\' then globLoop .esc rest
    else if c = '[' then globLoop .classStart rest
    else if c = Char.ofNat 123 then globLoop (.alternate "" []) rest
    else if c = '?' then (globLoop .literal rest).map (fun s => "[^/]" ++ s)
    else if c = '*' then (globLoop .literal rest).map (fun s => ".*" ++ s)
    else if c = ']' ∨ c = Char.ofNat 125 ∨ c = '.' then
      (globLoop .literal rest).map (fun s => "\\" ++ c.toString ++ s)
    else (globLoop .literal rest).map (fun s => c.toString ++ s)
  | .esc, [] => .error .bareEscape
  | .esc, c :: rest => (globLoop .literal rest).map (fun s => escape_special c ++ s)
  | .classStart, [] => .error .unclosedClass
  | .classStart, c :: rest =>
    if c = '!' then globLoop (.cls ⟨true, []⟩) rest
    else if c = '-' then globLoop (.cls ⟨false, [.char '-']⟩) rest
    else if c = ']' then globLoop (.cls ⟨false, [.char ']']⟩) rest
    else if c = '\\' then globLoop (.clsEscape ⟨false, []⟩) rest
    else globLoop (.cls ⟨false, [.char c]⟩) rest
  | .cls _, [] => .error .unclosedClass
  | .cls acc, c :: rest =>
    if c = ']' then
      if acc.items.isEmpty then
        globLoop (.cls ⟨acc.negated, acc.items ++ [.char ']']⟩) rest
      else (globLoop .literal rest).map (fun s => close_class acc ++ s)
    else if c = '-' then
      match acc.items.getLast? with
      | none => globLoop (.cls ⟨acc.negated, [.char '-']⟩) rest
      | some (.range _ _) => globLoop (.clsRangeDash acc) rest
      | some (.char s) => globLoop (.clsRange ⟨acc.negated, acc.items.dropLast⟩ s) rest
    else if c = '\\' then globLoop (.clsEscape acc) rest
    else globLoop (.cls ⟨acc.negated, acc.items ++ [.char c]⟩) rest
  | .clsEscape _, [] => .error .unclosedClass
  | .clsEscape acc, c :: rest =>
    globLoop (.cls ⟨acc.negated, acc.items ++ [.char (map_letter_escape c)]⟩) rest
  | .clsRange _ _, [] => .error .unclosedClass
  | .clsRange acc s, c :: rest =>
    if c = '\\' then .error (.notImplemented "class range end escape")
    else if c = ']' then
      (globLoop .literal rest).map
        (fun out => close_class ⟨acc.negated, acc.items ++ [.char s, .char '-']⟩ ++ out)
    else if c < s then .error (.reversedRange s c)
    else if c = s then globLoop (.cls ⟨acc.negated, acc.items ++ [.char s]⟩) rest
    else globLoop (.cls ⟨acc.negated, acc.items ++ [.range s c]⟩) rest
  | .clsRangeDash _, [] => .error .unclosedClass
  | .clsRangeDash acc, c :: rest =>
    if c = ']' then
      (globLoop .literal rest).map
        (fun out => close_class ⟨acc.negated, acc.items ++ [.char '-']⟩ ++ out)
    else
      match acc.items.getLast? with
      | some (.range s e) => .error (.rangeAfterRange s e)
      | _ => .error (.notImplemented "unreachable: dash after range")
  | .alternate _ _, [] => .error .unclosedAlternation
  | .alternate cur gathered, c :: rest =>
    if c = ',' then globLoop (.alternate "" (gathered ++ [cur])) rest
    else if c = Char.ofNat 125 then
      if cur = "" ∧ gathered = [] then
        (globLoop .literal rest).map (fun s => "\\\x7b\\\x7d" ++ s)
      else (globLoop .literal rest).map (fun s => close_alternate (gathered ++ [cur]) ++ s)
    else if c = '\\' then globLoop (.alternateEscape cur gathered) rest
    else if c = '[' then .error (.notImplemented "alternate character class")
    else globLoop (.alternate (cur.push c) gathered) rest
  | .alternateEscape _ _, [] => .error .unclosedAlternation
  | .alternateEscape cur gathered, c :: rest =>
    globLoop (.alternate (cur.push (map_letter_escape c)) gathered) rest

/-- Embedding of `glob_to_regex_string` (glob.rs) before `unwrap`: the driver
emits `^` in the `Start` state and then runs the state machine. -/
def glob_to_regex_string_e (pat : String) : Except FError String :=
  (globLoop .literal pat.toList).map (fun s => "^" ++ s)

/-- Embedding of `glob_to_regex_string` (glob.rs): the Rust function `unwrap`s
the parse result (so it panics on malformed patterns; the claims only evaluate
it on patterns the parse accepts). -/
def glob_to_regex_string (pat : String) : String :=
  match glob_to_regex_string_e pat with
  | .ok s => s
  | .error _ => ""

/-- Denotation of a class item as a character predicate: the meaning of one
item of a regex bracket expression. -/
def classItemMatches (c : Char) : ClassItem → Bool
  | .char a => a = c
  | .range s e => s ≤ c ∧ c ≤ e

/-- Denotation of a class accumulator as a character predicate: a negated class
matches the characters no item matches; a plain class matches the characters
some item matches.  This is the meaning of the bracket expression `close_class`
emits. -/
def accMatches (acc : ClassAccumulator) (c : Char) : Bool :=
  if acc.negated then !(acc.items.any (classItemMatches c))
  else acc.items.any (classItemMatches c)

/- ===================== pattern list construction (main.rs) ===================== -/

/-- Embedding of Rust `str::trim` as used on pattern strings (drops leading and
trailing whitespace characters). -/
def rustTrim (s : String) : String :=
  ⟨((s.toList.dropWhile Char.isWhitespace).reverse.dropWhile Char.isWhitespace).reverse⟩

/-- Embedding of `str::strip_prefix('/')`: the string without its leading
slash, when it has one. -/
def stripSlash (s : String) : Option String :=
  match s.toList with
  | '/' :: rest => some ⟨rest⟩
  | _ => none

/-- Embedding of the per-pattern body of `create_mixed_regex_list`
(main.rs lines 193-206; identical to `parse_mixed_regex` in pmatcher.rs):
a trimmed pattern starting with `/` is used as a raw regex with the slash
stripped, any other pattern goes through the glob compiler.  The value is the
source string handed to `Regex::new`. -/
def mixedRegexSource (pattern : String) : String :=
  let p := rustTrim pattern
  match stripSlash p with
  | some stripped => stripped
  | none => glob_to_regex_string p

/-- Embedding of `create_mixed_regex_list` (main.rs) at the regex-source level. -/
def create_mixed_regex_list (patterns : List String) : List String :=
  patterns.map mixedRegexSource

/-- Embedding of `create_regex_list` (main.rs lines 211-219): every pattern is
trimmed and handed to `Regex::new` as-is — no slash handling, no glob
compilation. -/
def create_regex_list (patterns : List String) : List String :=
  patterns.map rustTrim

/-- The regex source strings held by a `PatternMatcher` (main.rs lines 123-128),
one entry per compiled pattern. -/
structure PatternMatcherSources where
  patterns_to_remove : List String
  patterns_to_remove_with_hash : List (String × List String)
  patterns_to_rename : List String
deriving DecidableEq, Repr

/-- Embedding of `PatternMatcher::from_config_file` (main.rs lines 130-143) at
the regex-source level: `remove` entries go through `create_mixed_regex_list`,
`cleanup` entries through `create_regex_list`, and `remove_hash` keys are
always glob-compiled (`create_patterns_with_hash`, main.rs lines 221-232). -/
def patternMatcher_from_config (remove : List String)
    (remove_hash : List (String × List String)) (cleanup : List String) :
    PatternMatcherSources :=
  { patterns_to_remove := create_mixed_regex_list remove
    patterns_to_remove_with_hash :=
      remove_hash.map (fun kv => (glob_to_regex_string kv.1, kv.2))
    patterns_to_rename := create_regex_list cleanup }

/- ===================== classification loop (main.rs) ===================== -/

/-- Embedding of the `Operation` enum of main.rs (lines 30-35).  Note that this
enum has exactly the three variants `None`, `Delete`, `Rename`. -/
inductive Operation where
  | none
  | delete
  | rename
deriving DecidableEq, Repr

/-- Embedding of the `Operation` enum declared in data.rs (lines 3-9), which
additionally declares a `MoveToParent` variant.  data.rs is not referenced by
main.rs (`main.rs` only declares `mod fnmatch_regex`), and no code in the
repository constructs `MoveToParent`. -/
inductive DataOperation where
  | none
  | delete
  | rename
  | moveToParent
deriving DecidableEq, Repr

/-- One filesystem entry as seen by the walk loop of main.rs: its path
components, its base name, and the two facts the loop queries about it
(`filepath.is_dir()` and `filepath.read_dir()?.next().is_none()`). -/
structure Entry where
  path : List String
  filename : String
  isDir : Bool
  isEmptyDir : Bool
deriving DecidableEq, Repr

/-- The behavior of a `PatternMatcher` as consumed by the classification loop.
In the Rust source `match_remove_pattern` and `match_remove_hash` return a
`(bool, Option<String>)` pair whose boolean always equals `is_some()` of the
option (both implementations return `(true, Some(..))` or `(false, None)`),
so the pair is embedded as the option alone.  `cleanFilename` embeds
`clean_filename`. -/
structure Matcher where
  matchRemove : String → Option String
  matchRemoveHash : List String → Option String
  cleanFilename : String → String

/-- The option flags of `AppOptions` (main.rs lines 37-48) consulted by the
planning and execution code (the walk-filtering and verbosity flags only
affect which entries are visited and what is printed). -/
structure AppOptions where
  enable_deletion : Bool
  enable_hash_matching : Bool
  enable_renaming : Bool
  enable_prune_empty_dir : Bool
  prune : Bool
deriving DecidableEq, Repr

/-- One element of `operation_list`: `(PathBuf, String, Operation)`. -/
abbrev OpRecord := List String × String × Operation

/-- Embedding of one iteration of the walk loop of main.rs (lines 409-446): the
records pushed onto `operation_list` for one entry.  The `continue` statements
of the delete/hash/rename branches become the if-else chain; the empty-directory
branch does not `continue`, so its `Delete` record is followed by the
unconditional `None` record of line 445. -/
def classifyRecords (o : AppOptions) (m : Matcher) (e : Entry) : List OpRecord :=
  if o.enable_deletion ∧ (m.matchRemove e.filename).isSome then
    [(e.path, (m.matchRemove e.filename).getD "", Operation.delete)]
  else if o.enable_deletion ∧ o.enable_hash_matching ∧
      (m.matchRemoveHash e.path).isSome then
    [(e.path, (m.matchRemoveHash e.path).getD "", Operation.delete)]
  else if o.enable_renaming ∧ m.cleanFilename e.filename ≠ e.filename then
    [(e.path, m.cleanFilename e.filename, Operation.rename)]
  else
    (if o.enable_prune_empty_dir ∧ e.isDir ∧ e.isEmptyDir then
      [(e.path, "<EMPTY_DIR>", Operation.delete)]
    else []) ++ [(e.path, "", Operation.none)]

/-- The raw `operation_list` after the walk loop: the per-entry records in walk
order. -/
def operationListRaw (o : AppOptions) (m : Matcher) (es : List Entry) : List OpRecord :=
  (es.map (classifyRecords o m)).flatten

/-- Embedding of the `retain` predicate of main.rs lines 458-461: keep every
record whose operation is not `None`. -/
def retainOp (r : OpRecord) : Bool := r.2.2 ≠ Operation.none

/-- The number of path components of a record's path: `a.0.components().count()`
in the comparator of main.rs lines 463-467. -/
def recDepth (r : OpRecord) : Nat := r.1.length

/-- Stable insertion step for the depth sort: the element is placed in front of
the first element whose depth is not greater. -/
def insertRec (x : OpRecord) : List OpRecord → List OpRecord
  | [] => [x]
  | y :: ys => if recDepth x < recDepth y then y :: insertRec x ys else x :: y :: ys

/-- Embedding of `operation_list.sort_by(depth_b.cmp(&depth_a))` (main.rs lines
462-467): the stable sort by path depth, deepest first.  Rust `sort_by` is
stable and the comparator is a total preorder on the depth key, so the sorted
list is exactly this stable insertion sort. -/
def sortOps : List OpRecord → List OpRecord
  | [] => []
  | x :: xs => insertRec x (sortOps xs)

/-- The final operation plan: the raw list with `None` records removed, sorted
deepest-first (main.rs lines 457-467). -/
def operationListFinal (o : AppOptions) (m : Matcher) (es : List Entry) : List OpRecord :=
  sortOps ((operationListRaw o m es).filter retainOp)

/-- The records the delete pass iterates over, in execution order (main.rs line
470: the plan filtered to `Operation::Delete`). -/
def deletePassList (o : AppOptions) (m : Matcher) (es : List Entry) : List OpRecord :=
  (operationListFinal o m es).filter (fun r => r.2.2 = Operation.delete)

/-- The records the rename pass iterates over, in execution order (main.rs line
487: the plan filtered to `Operation::Rename`). -/
def renamePassList (o : AppOptions) (m : Matcher) (es : List Entry) : List OpRecord :=
  (operationListFinal o m es).filter (fun r => r.2.2 = Operation.rename)

/- ===================== match_remove_hash (main.rs and pmatcher.rs) ===================== -/

/-- One entry of `patterns_to_remove_with_hash`: the regex source, its matching
behavior on a file name, and the candidate digest list. -/
structure HashPattern where
  source : String
  isMatch : String → Bool
  hashes : List String

/-- A computation that either panics or produces a value; used to embed Rust
code that calls `unwrap()` on a fallible operation. -/
inductive PanicOr (α : Type) where
  | panic
  | ok (val : α)
deriving DecidableEq, Repr

/-- Embedding of `PatternMatcher::match_remove_hash` of main.rs (lines 154-171).
`digest` is the outcome of opening the file, reading it to the end and MD5-ing
the contents (`.error ()` when the file cannot be opened or read).  The Rust
code runs `File::open(test_file).unwrap()` and `read_to_end(&mut buffer).unwrap()`,
so an I/O failure on a file whose name matched a hash-gated pattern panics. -/
def matchRemoveHashMain (pats : List HashPattern) (digest : Except Unit String)
    (filename : String) : PanicOr (Bool × Option String) :=
  match pats with
  | [] => .ok (false, none)
  | p :: rest =>
    if p.isMatch filename then
      match digest with
      | .error _ => .panic
      | .ok h =>
        if h ∈ p.hashes then .ok (true, some (p.source ++ ":" ++ h))
        else matchRemoveHashMain rest digest filename
    else matchRemoveHashMain rest digest filename

/-- The loop of `PatternMatcher::match_remove_hash` of pmatcher.rs (lines 51-66):
`fileSize` is `metadata.len()` when metadata is available; a matching file
larger than 100 MiB returns immediately; `calculate_md5` failure (`digest =
.error ()`) just falls through to the next pattern. -/
def matchRemoveHashPmGo (pats : List HashPattern) (fileSize : Option Nat)
    (digest : Except Unit String) (fn : String) : Bool × Option String :=
  match pats with
  | [] => (false, none)
  | p :: rest =>
    if p.isMatch fn then
      if (match fileSize with
          | some n => decide (n > 100 * 1024 * 1024)
          | none => false) then (false, none)
      else
        match digest with
        | .ok h =>
          if h ∈ p.hashes then (true, some (p.source ++ ":" ++ h))
          else matchRemoveHashPmGo rest fileSize digest fn
        | .error _ => matchRemoveHashPmGo rest fileSize digest fn
    else matchRemoveHashPmGo rest fileSize digest fn

/-- Embedding of `PatternMatcher::match_remove_hash` of pmatcher.rs (lines
45-68): an invalid file name returns `(false, none)`, otherwise the pattern
loop runs; digest I/O failure is never propagated. -/
def matchRemoveHashPm (pats : List HashPattern) (fileSize : Option Nat)
    (digest : Except Unit String) (filename : Option String) : Bool × Option String :=
  match filename with
  | none => (false, none)
  | some fn => matchRemoveHashPmGo pats fileSize digest fn

/- ===================== execution passes (main.rs lines 469-507) ===================== -/

/-- The filesystem oracle consulted by the executor: whether a path currently
exists, whether `remove_path` on it succeeds, and whether `rename` from a
source to a destination succeeds. -/
structure ExecEnv where
  pathExists : List String → Bool
  removeOk : List String → Bool
  renameOk : List String → List String → Bool

/-- Embedding of `PathBuf::set_file_name` on a path that ends in a file name:
replace the last component. -/
def setFileName (p : List String) (newName : String) : List String :=
  p.dropLast ++ [newName]

/-- Embedding of the delete pass of main.rs (lines 469-484 together with
`remove_path`, lines 502-507).  The result is the list of paths on which
`remove_path` was invoked, paired with the outcome of the pass: when
`remove_path` fails, the `?` operator propagates the error out of `main`, so
the pass stops and no later record is attempted.  A path that no longer exists
is skipped (`if file_path.exists()`), and without `prune` nothing is mutated. -/
def runDeletePass (env : ExecEnv) (prune : Bool) :
    List OpRecord → List (List String) × Except Unit Unit
  | [] => ([], .ok ())
  | (p, _, _) :: rest =>
    if prune then
      if env.pathExists p then
        if env.removeOk p then
          let r := runDeletePass env prune rest
          (p :: r.1, r.2)
        else ([p], .error ())
      else runDeletePass env prune rest
    else runDeletePass env prune rest

/-- Embedding of the rename pass of main.rs (lines 486-497).  The result is the
list of `(source, destination)` pairs on which `rename` was invoked, paired
with the outcome of the pass.  The destination is always
`file_path.set_file_name(new_file_name)` — no existence check is made before
calling `rename`, and a failing `rename` propagates its error through `?`. -/
def runRenamePass (env : ExecEnv) (prune : Bool) :
    List OpRecord → List ((List String) × (List String)) × Except Unit Unit
  | [] => ([], .ok ())
  | (p, nf, _) :: rest =>
    if prune then
      let target := setFileName p nf
      if env.renameOk p target then
        let r := runRenamePass env prune rest
        ((p, target) :: r.1, r.2)
      else ([(p, target)], .error ())
    else runRenamePass env prune rest

/- ===================== concrete fixtures ===================== -/

/-- All behavior flags on, as with the default command line. -/
def oAll : AppOptions := ⟨true, true, true, true, true⟩

/-- A matcher whose delete list matches exactly the name "a" and whose cleanup
patterns rewrite the name "x" to "y" (abstracting a config such as
`remove: [a]`, `cleanup: [/x$ -> ""]`-style substitution behavior). -/
def mC2 : Matcher :=
  { matchRemove := fun s => if s = "a" then some "^a$" else none
    matchRemoveHash := fun _ => none
    cleanFilename := fun s => if s = "x" then "y" else s }

/-- Entries of a walk of a directory `a` (matched for deletion) containing a
file `a/x` (matched for renaming). -/
def esC2 : List Entry :=
  [⟨["a"], "a", true, false⟩, ⟨["a", "x"], "x", false, false⟩]

/-- A matcher with no delete patterns whose cleanup patterns erase the whole
name. -/
def mC4 : Matcher :=
  { matchRemove := fun _ => none
    matchRemoveHash := fun _ => none
    cleanFilename := fun _ => "" }

/-- A directory entry named "b". -/
def eC4 : Entry := ⟨["b"], "b", true, false⟩

/-- A directory entry named "c" (used to instantiate the amended C4 theorem). -/
def eC4w : Entry := ⟨["c"], "c", true, false⟩

/-- A matcher that matches nothing and rewrites nothing. -/
def mNone : Matcher :=
  { matchRemove := fun _ => none
    matchRemoveHash := fun _ => none
    cleanFilename := fun s => s }

/-- An empty directory entry named "d". -/
def eEmptyDir : Entry := ⟨["d"], "d", true, true⟩

/-- A hash-gated pattern for the name "x". -/
def pC6 : HashPattern :=
  ⟨"^x$", fun s => s = "x", ["d41d8cd98f00b204e9800998ecf8427e"]⟩

/-- A filesystem in which every path exists and every mutation succeeds except
that removing "p1" fails. -/
def envC7 : ExecEnv :=
  { pathExists := fun _ => true
    removeOk := fun p => p ≠ ["p1"]
    renameOk := fun _ _ => true }

/-- Two planned deletions, the first of which will fail. -/
def opsC7 : List OpRecord :=
  [(["p1"], "x", Operation.delete), (["p2"], "y", Operation.delete)]

/-- A filesystem in which "bar.txt" and "bar(1).txt" already exist (the
worked collision example of the specification) and every mutation succeeds. -/
def envC3 : ExecEnv :=
  { pathExists := fun q => q = ["bar.txt"] ∨ q = ["bar(1).txt"]
    removeOk := fun _ => true
    renameOk := fun _ _ => true }

/-- A matcher whose delete list matches the names "a" and "x" (so that a
directory and a file inside it are both planned for deletion). -/
def mC9 : Matcher :=
  { matchRemove := fun s => if s = "a" ∨ s = "x" then some "^a$" else none
    matchRemoveHash := fun _ => none
    cleanFilename := fun s => s }

/-- Entries of a walk of a directory `a` containing a file `a/x`, both matched
for deletion. -/
def esC9 : List Entry :=
  [⟨["a"], "a", true, false⟩, ⟨["a", "x"], "x", false, false⟩]

/-- A filesystem in which every path exists but no removal succeeds. -/
def envC7w : ExecEnv :=
  { pathExists := fun _ => true
    removeOk := fun _ => false
    renameOk := fun _ _ => true }

/-- `q` is a strict descendant of `p` (as component lists): `p` is a proper
prefix of `q`. -/
def strictUnder (q p : List String) : Bool :=
  decide (p.length < q.length) && decide (q.take p.length = p)

/- ===================== helper lemmas ===================== -/

/-- Membership in a stable insertion step. -/
theorem mem_insertRec (a x : OpRecord) (l : List OpRecord) :
    a ∈ insertRec x l ↔ a = x ∨ a ∈ l := by
  induction l with
  | nil => simp [insertRec]
  | cons y ys ih =>
    simp only [insertRec]
    split
    · simp only [List.mem_cons, ih]
      tauto
    · simp [List.mem_cons]

/-- The depth sort permutes the operation list: membership is preserved. -/
theorem mem_sortOps (a : OpRecord) (l : List OpRecord) : a ∈ sortOps l ↔ a ∈ l := by
  induction l with
  | nil => simp [sortOps]
  | cons x xs ih => simp [sortOps, mem_insertRec, ih, List.mem_cons]

/-- Inserting into a deepest-first sorted list keeps it sorted. -/
theorem insertRec_pairwise (x : OpRecord) (l : List OpRecord)
    (h : l.Pairwise (fun a b => recDepth b ≤ recDepth a)) :
    (insertRec x l).Pairwise (fun a b => recDepth b ≤ recDepth a) := by
  induction l with
  | nil => simp [insertRec]
  | cons y ys ih =>
    rcases List.pairwise_cons.mp h with ⟨hy, hys⟩
    simp only [insertRec]
    split
    · rename_i hlt
      refine List.pairwise_cons.mpr ⟨?_, ih hys⟩
      intro z hz
      rcases (mem_insertRec z x ys).mp hz with rfl | hzys
      · exact Nat.le_of_lt hlt
      · exact hy z hzys
    · rename_i hnlt
      refine List.pairwise_cons.mpr ⟨?_, h⟩
      intro z hz
      rcases List.mem_cons.mp hz with rfl | hzys
      · exact Nat.le_of_not_lt hnlt
      · exact Nat.le_trans (hy z hzys) (Nat.le_of_not_lt hnlt)

/-- The sorted operation list is deepest-first: every record is at least as
deep as every record after it. -/
theorem sortOps_pairwise (l : List OpRecord) :
    (sortOps l).Pairwise (fun a b => recDepth b ≤ recDepth a) := by
  induction l with
  | nil => simp [sortOps]
  | cons x xs ih => exact insertRec_pairwise x _ ih

/-- The delete pass list is deepest-first. -/
theorem deletePassList_pairwise (o : AppOptions) (m : Matcher) (es : List Entry) :
    (deletePassList o m es).Pairwise (fun a b => recDepth b ≤ recDepth a) :=
  List.Pairwise.sublist (List.filter_sublist _) (sortOps_pairwise _)

/-- `itemCoversSlash` is the slash instance of the class-item denotation. -/
theorem itemCoversSlash_eq (i : ClassItem) :
    itemCoversSlash i = classItemMatches '/' i := by
  cases i <;> rfl

/-- Every item produced by the slash-exclusion rewrite rejects the slash
character. -/
theorem excItem_no_slash (i j : ClassItem) (hj : j ∈ excItem i) :
    classItemMatches '/' j = false := by
  rcases i with c | ⟨s, e⟩
  · by_cases hc : c = '/'
    · simp [excItem, hc] at hj
    · simp only [excItem, if_neg hc, List.mem_singleton] at hj
      subst hj
      simp [classItemMatches, hc]
  · simp only [excItem] at hj
    by_cases he : e = '/'
    · rw [if_pos he] at hj
      by_cases hs : s = '.'
      · rw [if_pos hs] at hj
        simp only [List.mem_singleton] at hj
        subst hj; decide
      · rw [if_neg hs] at hj
        simp only [List.mem_singleton] at hj
        subst hj
        simp only [classItemMatches]
        exact decide_eq_false (fun hands => absurd hands.2 (by decide))
    · rw [if_neg he] at hj
      by_cases hs : s = '/'
      · rw [if_pos hs] at hj
        by_cases he0 : e = '0'
        · rw [if_pos he0] at hj
          simp only [List.mem_singleton] at hj
          subst hj; decide
        · rw [if_neg he0] at hj
          simp only [List.mem_singleton] at hj
          subst hj
          simp only [classItemMatches]
          exact decide_eq_false (fun hands => absurd hands.1 (by decide))
      · rw [if_neg hs] at hj
        by_cases hg : s > '/' ∨ e < '/'
        · rw [if_pos hg] at hj
          simp only [List.mem_singleton] at hj
          subst hj
          simp only [classItemMatches]
          refine decide_eq_false (fun hands => ?_)
          rcases hg with hg | hg
          · exact absurd hands.1 (not_le.mpr hg)
          · exact absurd hands.2 (not_le.mpr hg)
        · rw [if_neg hg] at hj
          rcases List.mem_cons.mp hj with rfl | hj2
          · by_cases hsd : s = '.'
            · rw [if_pos hsd]; decide
            · rw [if_neg hsd]
              simp only [classItemMatches]
              exact decide_eq_false (fun hands => absurd hands.2 (by decide))
          · simp only [List.mem_singleton] at hj2
            subst hj2
            by_cases hed : e = '0'
            · rw [if_pos hed]; decide
            · rw [if_neg hed]
              simp only [classItemMatches]
              exact decide_eq_false (fun hands => absurd hands.1 (by decide))

/-- After `handle_slash`, no character class — negated or not — matches the
slash character.  This is the slash-safety rule the source implements for
character classes (it does not apply to the `*` wildcard, whose fragment is
emitted by `handle_literal`). -/
theorem handle_slash_no_slash (acc : ClassAccumulator) :
    accMatches (handle_slash acc) '/' = false := by
  unfold handle_slash
  by_cases hn : acc.negated
  · rw [if_pos hn]
    unfold handle_slash_include
    by_cases hcov : acc.items.any itemCoversSlash
    · rw [if_pos hcov]
      unfold accMatches
      rw [if_pos hn]
      have : acc.items.any (classItemMatches '/') = true := by
        rw [List.any_eq_true] at hcov ⊢
        rcases hcov with ⟨i, hi, hci⟩
        exact ⟨i, hi, (itemCoversSlash_eq i) ▸ hci⟩
      rw [this]; rfl
    · rw [if_neg hcov]
      unfold accMatches
      simp only [hn, if_pos]
      have : (acc.items ++ [ClassItem.char '/']).any (classItemMatches '/') = true := by
        rw [List.any_eq_true]
        exact ⟨.char '/', List.mem_append_right _ (List.mem_singleton_self _), by decide⟩
      rw [this]; rfl
  · rw [if_neg hn]
    unfold handle_slash_exclude accMatches
    simp only [hn, if_neg, Bool.false_eq_true, if_false]
    rw [List.any_eq_false]
    intro j hj
    rw [List.mem_flatten] at hj
    rcases hj with ⟨l, hl, hjl⟩
    rw [List.mem_map] at hl
    rcases hl with ⟨i, _, rfl⟩
    exact fun hcon => absurd (excItem_no_slash i j hjl) (by simp [hcon])

/- ===================== claim theorems ===================== -/

/-- C1: evaluation of the compiler at the failing input.  The glob `*` compiles
to `^.*$`, whose `.*` fragment matches any characters including `/`, while `?`
compiles to the slash-free `^[^/]$`.  This contradicts the claim (and the
module documentation of glob.rs, lines 5-7 and 17-18, which promises that `*`
never matches a slash); character classes, by contrast, do reject the slash —
see `handle_slash_no_slash`. -/
theorem C1_star_emits_dot_star :
    glob_to_regex_string "*" = "^.*$" ∧ glob_to_regex_string "?" = "^[^/]$" := by
  decide

/-- C2 counterexample: with directory `a` matched for deletion and file `a/x`
matched for renaming, the final plan marks `a` as Delete while its strict
descendant `a/x` stays Rename, and `a/x` is part of the rename execution pass.
No cascade or ancestor propagation exists in main.rs. -/
theorem C2_counterexample :
    (["a"], "^a$", Operation.delete) ∈ operationListFinal oAll mC2 esC2 ∧
    (["a", "x"], "y", Operation.rename) ∈ operationListFinal oAll mC2 esC2 ∧
    strictUnder ["a", "x"] ["a"] = true ∧
    renamePassList oAll mC2 esC2 = [(["a", "x"], "y", Operation.rename)] := by
  refine ⟨by decide, by decide, by decide, by decide⟩

/-- C2 amended: the planning phase of main.rs classifies every entry
independently and performs no propagation, so an entry classified Rename keeps
that operation in the final plan — and is handed to the rename execution pass —
regardless of any Delete marked on an ancestor directory. -/
theorem C2_amended_rename_survives (o : AppOptions) (m : Matcher) (es : List Entry)
    (e : Entry) (nf : String) (he : e ∈ es)
    (hc : classifyRecords o m e = [(e.path, nf, Operation.rename)]) :
    (e.path, nf, Operation.rename) ∈ renamePassList o m es := by
  have hraw : (e.path, nf, Operation.rename) ∈ operationListRaw o m es := by
    unfold operationListRaw
    rw [List.mem_flatten]
    exact ⟨classifyRecords o m e, List.mem_map_of_mem _ he,
      by rw [hc]; exact List.mem_singleton_self _⟩
  have hfil : (e.path, nf, Operation.rename) ∈ (operationListRaw o m es).filter retainOp :=
    List.mem_filter.mpr ⟨hraw, rfl⟩
  have hsort : (e.path, nf, Operation.rename) ∈ operationListFinal o m es :=
    (mem_sortOps _ _).mpr hfil
  exact List.mem_filter.mpr ⟨hsort, rfl⟩

/-- C2 witness: the amended theorem applied to the concrete `a` / `a/x` walk. -/
theorem C2_amended_witness :
    (["a", "x"], "y", Operation.rename) ∈ renamePassList oAll mC2 esC2 :=
  C2_amended_rename_survives oAll mC2 esC2 ⟨["a", "x"], "x", false, false⟩ "y"
    (by decide) (by decide)

/-- C3 counterexample: renaming `foo.txt` to `bar.txt` while `bar.txt` and
`bar(1).txt` both exist: the executor calls `rename` with destination
`bar.txt` itself — not `bar(2).txt` as the claim requires — because main.rs
lines 486-497 never consult the filesystem for the destination and derive no
alternative names. -/
theorem C3_counterexample :
    (runRenamePass envC3 true [(["foo.txt"], "bar.txt", Operation.rename)]).1
      = [(["foo.txt"], ["bar.txt"])] ∧
    envC3.pathExists ["bar.txt"] = true ∧
    envC3.pathExists ["bar(1).txt"] = true ∧
    (["bar.txt"] : List String) ≠ ["bar(2).txt"] := by
  refine ⟨rfl, by decide, by decide, by decide⟩

/-- C3 amended: the executor of main.rs renames directly to
`file_path.set_file_name(new_file_name)`: the first rename attempted for a
record is always that destination, independent of what exists on the
filesystem; no `(1)`, `(2)`, … alternatives and no 999-attempt bound exist. -/
theorem C3_amended_direct_rename (env : ExecEnv) (p : List String) (nf : String)
    (op : Operation) (rest : List OpRecord) :
    (runRenamePass env true ((p, nf, op) :: rest)).1.head? =
      some (p, setFileName p nf) := by
  by_cases hr : env.renameOk p (setFileName p nf)
  · simp [runRenamePass, hr]
  · simp [runRenamePass, hr]

/-- C4 counterexample: a directory entry `b` whose cleaned name is empty is
classified `Rename` (with empty new name) by main.rs lines 426-432 — not
`MoveToParent`, which is declared only in the unused data.rs and constructed
nowhere. -/
theorem C4_counterexample :
    classifyRecords oAll mC4 eC4 = [(["b"], "", Operation.rename)] := by decide

/-- C4 amended: when no delete pattern applies and cleaning empties a
non-empty name, the classifier of main.rs produces exactly one `Rename` record
with the empty new name — for directories just as for files. -/
theorem C4_amended_empty_name_is_rename (o : AppOptions) (m : Matcher) (e : Entry)
    (h1 : m.matchRemove e.filename = none)
    (h2 : m.matchRemoveHash e.path = none)
    (hr : o.enable_renaming = true)
    (hclean : m.cleanFilename e.filename = "")
    (hne : e.filename ≠ "") :
    classifyRecords o m e = [(e.path, "", Operation.rename)] := by
  unfold classifyRecords
  rw [h1, h2, hclean]
  simp [hr, Ne.symm hne]

/-- C4 witness: the amended theorem applied to the concrete directory `c`. -/
theorem C4_amended_witness :
    classifyRecords oAll mC4 eC4w = [(["c"], "", Operation.rename)] :=
  C4_amended_empty_name_is_rename oAll mC4 eC4w rfl rfl rfl rfl (by decide)

/-- C5 counterexample: an empty directory `d` matched by nothing receives two
records from the walk loop — the `<EMPTY_DIR>` Delete of lines 434-443 and the
unconditional None of line 445 (that branch has no `continue`) — so the loop
does not produce exactly one record for it. -/
theorem C5_counterexample :
    classifyRecords oAll mNone eEmptyDir
      = [(["d"], "<EMPTY_DIR>", Operation.delete), (["d"], "", Operation.none)] ∧
    (classifyRecords oAll mNone eEmptyDir).length ≠ 1 := by decide

/-- C5 amended: each entry produces one record, except an entry taking the
empty-directory branch, which produces two (its Delete plus the trailing None);
after the `retain` step drops None records, at most one operation per entry
remains. -/
theorem C5_amended_at_most_one (o : AppOptions) (m : Matcher) (e : Entry) :
    ((classifyRecords o m e).filter retainOp).length ≤ 1 ∧
    1 ≤ (classifyRecords o m e).length ∧ (classifyRecords o m e).length ≤ 2 := by
  unfold classifyRecords
  split_ifs <;> simp [retainOp]

/-- C6: `match_remove_hash` of main.rs (lines 154-171) panics — `File::open`
and `read_to_end` are `unwrap`ed — when the digest of a file whose name matches
a hash-gated pattern cannot be computed, while the version in pmatcher.rs
(lines 45-68) treats the same failure as "no hash match" as the claim states. -/
theorem C6_hash_io_failure :
    matchRemoveHashMain [pC6] (.error ()) "x" = PanicOr.panic ∧
    matchRemoveHashPm [pC6] none (.error ()) (some "x") = (false, none) :=
  ⟨rfl, rfl⟩

/-- C7 counterexample: with two planned deletions where removing `p1` fails,
the delete pass attempts only `p1` and returns the error (the `?` on
`remove_path` aborts `main`); `p2` is never attempted, so execution does not
continue past a failing item. -/
theorem C7_counterexample :
    runDeletePass envC7 true opsC7 = ([["p1"]], Except.error ()) ∧
    ["p2"] ∉ (runDeletePass envC7 true opsC7).1 := by
  refine ⟨rfl, by decide⟩

/-- C7 amended: a `remove_path` failure on an existing path stops the delete
pass at that item and propagates the error out of `main`; only a path that no
longer exists is skipped with the pass continuing. -/
theorem C7_amended_abort_on_failure (env : ExecEnv) (p : List String) (s : String)
    (rest : List OpRecord)
    (hex : env.pathExists p = true) (hfail : env.removeOk p = false) :
    runDeletePass env true ((p, s, Operation.delete) :: rest) = ([p], Except.error ()) ∧
    ∀ (q : List String) (t : String) (op2 : Operation) (rest2 : List OpRecord),
      env.pathExists q = false →
        runDeletePass env true ((q, t, op2) :: rest2) = runDeletePass env true rest2 := by
  constructor
  · simp [runDeletePass, hex, hfail]
  · intro q t op2 rest2 hq
    simp [runDeletePass, hq]

/-- C7 witness: the amended theorem applied to a one-item plan whose removal
fails. -/
theorem C7_amended_witness :
    runDeletePass envC7w true [(["a"], "", Operation.delete)] = ([["a"]], Except.error ()) :=
  (C7_amended_abort_on_failure envC7w ["a"] "" [] rfl rfl).1

/-- C8 counterexample: a `cleanup` entry `/a` is compiled by
`create_regex_list` as the raw regex source `/a` — the leading slash is not
stripped and no glob compilation happens — whereas the same entry in `remove`
goes through `create_mixed_regex_list` and yields `a`. -/
theorem C8_counterexample :
    (patternMatcher_from_config [] [] ["/a"]).patterns_to_rename = ["/a"] ∧
    (patternMatcher_from_config ["/a"] [] []).patterns_to_remove = ["a"] ∧
    ("/a" : String) ≠ "a" := by
  refine ⟨rfl, rfl, by decide⟩

/-- C8 amended: only `remove` entries get the mixed treatment (leading `/`
strips to a raw regex body, anything else is glob-compiled); `cleanup` entries
are trimmed and handed to the regex engine as-is. -/
theorem C8_amended_cleanup_is_raw (rs : List String) (hs : List (String × List String))
    (cs : List String) :
    (patternMatcher_from_config rs hs cs).patterns_to_rename = cs.map rustTrim ∧
    (patternMatcher_from_config rs hs cs).patterns_to_remove =
      rs.map (fun p =>
        match stripSlash (rustTrim p) with
        | some stripped => stripped
        | none => glob_to_regex_string (rustTrim p)) :=
  ⟨rfl, rfl⟩

/-- C9: in the delete pass of main.rs (the plan sorted by component count
descending, then filtered to Delete), a record whose path is a strict
descendant of another record's path is always executed strictly earlier. -/
theorem C9_deletes_deepest_first (o : AppOptions) (m : Matcher) (es : List Entry)
    (i j : Fin (deletePassList o m es).length)
    (h : strictUnder ((deletePassList o m es).get j).1
      ((deletePassList o m es).get i).1 = true) :
    (j : Nat) < (i : Nat) := by
  have hlen : ((deletePassList o m es).get i).1.length <
      ((deletePassList o m es).get j).1.length := by
    have hand := (Bool.and_eq_true _ _).mp h
    exact of_decide_eq_true hand.1
  rcases Nat.lt_trichotomy (j : Nat) (i : Nat) with hij | hij | hij
  · exact hij
  · exfalso
    have : (deletePassList o m es).get i = (deletePassList o m es).get j := by
      congr 1
      exact Fin.ext hij.symm
    rw [this] at hlen
    exact Nat.lt_irrefl _ hlen
  · exfalso
    have hp := deletePassList_pairwise o m es
    have hle := List.pairwise_iff_get.mp hp i j hij
    exact absurd hlen (Nat.not_lt.mpr hle)

/-- C9 witness: with directory `a` and file `a/x` both planned for deletion,
the descendant record sits at position 0 and the ancestor at position 1 of the
delete pass. -/
theorem C9_witness : (0 : Nat) < 1 :=
  C9_deletes_deepest_first oAll mC9 esC9 ⟨1, by decide⟩ ⟨0, by decide⟩ (by decide)

/-- C10: in a character class only a leading `!` negates; a leading `^` is an
ordinary member emitted unescaped, so `[^a]` compiles to exactly `^[^a]$`
(whose bracket expression starts with the literal `^`), while `[!a]` compiles
to the negated `^[^/a]$`. -/
theorem C10_caret_is_literal :
    glob_to_regex_string "[^a]" = "^[^a]$" ∧
    glob_to_regex_string "[!a]" = "^[^/a]$" := by
  decide

end FileClean
